import Mathlib

/-! Synth: voice pool and melody scheduler.

A shallow embedding of `src/include/synth.h`.

* A finite C++ `float` / `double` value is the rational (`ℚ`) it denotes.
  Comparisons and assignments are exact. The arithmetic of the voice loop is
  given twice: `renderVoice` computes in exact arithmetic, `renderVoice32` in
  the binary32 / binary64 arithmetic of the code, with rounding, overflow and
  NaN. Statements about `renderVoice` are statements in exact arithmetic.
* `int` key codes are `Int`; the melody index (an `int` that only ever counts
  up from 0) is a `Nat`.
* `std::array<Note, MAX_NOTES>` is a `List Note`; the constructor builds it
  with `MAX_NOTES` entries and no operation changes its length.
* `std::map<int, Note>` is an association list searched from the front.
* The GUI members (`visual_notes`, combo box, repaint) and the samples written
  to the output buffers do not influence the engine state and are left out.
-/

namespace Synth

/-! ## Data model -/

/-- Number of voice slots: `static constexpr int8_t MAX_NOTES = 10`. -/
def MAX_NOTES : Nat := 10

/-- A voice slot: `struct Note`, with the defaults of its member initialisers. -/
structure Note where
  frequency : ℚ := 0
  phase : ℚ := 0
  phase_delta : ℚ := 0
  amplitude : ℚ := 1
  is_active : Bool := false
  key_code : Int := -1
deriving DecidableEq, Repr

/-- Modelled from the spec: the `MelodyNote` record of `notes.h`, which is not
among the sources; the three fields are the ones `synth.h` reads
(`keyCode`, `startTimeSecs`, `durationSecs`). -/
structure MelodyNote where
  keyCode : Int
  startTimeSecs : ℚ
  durationSecs : ℚ
deriving DecidableEq, Repr

/-- The engine members of `class Synth`. -/
structure State where
  sample_rate : ℚ := 0
  active_notes : List Note := List.replicate MAX_NOTES {}
  note_map : List (Int × Note) := []
  melody : List MelodyNote := []
  is_playing_melody : Bool := false
  melody_start_time : ℚ := 0
  next_melody_note_index : Nat := 0
deriving DecidableEq, Repr

/-- The value of `juce::MathConstants<double>::twoPi`: the IEEE double nearest
to `2π`, which is the dyadic rational `0x1921FB54442D18 / 2^50`. -/
def twoPi : ℚ := 7074237752028440 / 1125899906842624

/-- The function `std::fmod` in exact arithmetic: `x - y * trunc (x / y)`, the
remainder that has the sign of `x`. -/
def fmod (x y : ℚ) : ℚ :=
  x - y * (if 0 ≤ x / y then ⌊x / y⌋ else ⌈x / y⌉)

/-! ## Voice pool -/

/-- The lookup `note_map.find(key_code)`. -/
def find (note_map : List (Int × Note)) (key_code : Int) : Option Note :=
  match note_map with
  | [] => none
  | (k, n) :: rest => if k = key_code then some n else find rest key_code

/-- The test of the first loop of `startNote` and of the loop of `stopNote`:
`voice.is_active && voice.key_code == key_code`. -/
def isPlaying (key_code : Int) (voice : Note) : Bool :=
  voice.is_active && decide (voice.key_code = key_code)

/-- The free-slot test of `startNote`:
`!voice.is_active && voice.amplitude == 0.0f`. -/
def isFree (voice : Note) : Bool :=
  !voice.is_active && decide (voice.amplitude = 0)

/-- The five assignments `startNote` makes to the slot it takes. -/
def assign (voice : Note) (frequency : ℚ) (key_code : Int) : Note :=
  { voice with
    frequency := frequency
    phase := 0
    amplitude := 1
    is_active := true
    key_code := key_code }

/-- The second loop of `startNote`: take the first free slot and return. -/
def startLoop (frequency : ℚ) (key_code : Int) : List Note → List Note
  | [] => []
  | voice :: rest =>
    if isFree voice then assign voice frequency key_code :: rest
    else voice :: startLoop frequency key_code rest

/-- The method `Synth::startNote`. -/
def startNote (s : State) (key_code : Int) : State :=
  if s.active_notes.any (isPlaying key_code) then s
  else
    match find s.note_map key_code with
    | some it =>
      { s with active_notes := startLoop it.frequency key_code s.active_notes }
    | none => s

/-- The loop of `stopNote`: clear `is_active` on the first match and return. -/
def stopLoop (key_code : Int) : List Note → List Note
  | [] => []
  | voice :: rest =>
    if isPlaying key_code voice then { voice with is_active := false } :: rest
    else voice :: stopLoop key_code rest

/-- The method `Synth::stopNote`. -/
def stopNote (s : State) (key_code : Int) : State :=
  { s with active_notes := stopLoop key_code s.active_notes }

/-- The method `Synth::prepareToPlay`. -/
def prepareToPlay (s : State) (newSampleRate : ℚ) : State :=
  { s with sample_rate := newSampleRate }

/-- The body of the voice loop of `getNextAudioBlock` for one voice and one
sample, in exact arithmetic: advance the phase of a sounding voice and fade an
inactive one. The control flow is that of the code; no result is rounded
(`renderVoice32` below is the same body in the code's binary arithmetic). -/
def renderVoice (sample_rate : ℚ) (voice : Note) : Note :=
  if voice.is_active || decide (voice.amplitude > 0) then
    let v1 := { voice with phase_delta := twoPi * voice.frequency / sample_rate }
    let v2 := { v1 with phase := fmod (v1.phase + v1.phase_delta) twoPi }
    if !v2.is_active then
      let v3 := { v2 with amplitude := v2.amplitude - 1 / 1000 }
      if v3.amplitude < 0 then { v3 with amplitude := 0 } else v3
    else v2
  else voice

/-- One iteration of the sample loop of `getNextAudioBlock` (one frame). -/
def renderFrame (s : State) : State :=
  { s with active_notes := s.active_notes.map (renderVoice s.sample_rate) }

/-- The method `Synth::getNextAudioBlock` for a block of `numSamples` frames. -/
def getNextAudioBlock (s : State) (numSamples : Nat) : State :=
  Nat.iterate renderFrame numSamples s

/-- The engine members as their member initialisers leave them: ten default
slots, nothing playing. (The constructor then also loads a preset into `melody`,
which no voice-pool operation reads.) -/
def init (note_map : List (Int × Note)) : State :=
  { note_map := note_map }

/-! ## Melody scheduler -/

/-- A call the scheduler makes into the voice pool. -/
inductive Call where
  | startNote (key_code : Int)
  | stopNote (key_code : Int)
deriving DecidableEq, Repr

/-- The elapsed playback time computed by `timerCallback`:
`getMillisecondCounter() / 1000.0 - melody_start_time`. -/
def currentTime (s : State) (millisecondCounter : Nat) : ℚ :=
  (millisecondCounter : ℚ) / 1000 - s.melody_start_time

/-- The first block of the playback logic of `timerCallback`: if the event at
`next_melody_note_index` exists and is due, start it and advance the index.
Returns the new state and the calls made. -/
def startDue (s : State) (t : ℚ) : State × List Call :=
  match s.melody.get? s.next_melody_note_index with
  | some note =>
    if t ≥ note.startTimeSecs then
      ({ startNote s note.keyCode with
          next_melody_note_index := s.next_melody_note_index + 1 },
        [Call.startNote note.keyCode])
    else (s, [])
  | none => (s, [])

/-- The test of the stop loop of `timerCallback`: the elapsed time lies in the
50 ms window that starts at the end of the note. -/
def inStopWindow (t : ℚ) (note : MelodyNote) : Bool :=
  decide (t ≥ note.startTimeSecs + note.durationSecs) &&
    decide (t < note.startTimeSecs + note.durationSecs + 5 / 100)

/-- The stop loop of `timerCallback` over the (remaining) melody. -/
def stopDue (t : ℚ) : List MelodyNote → State × List Call → State × List Call
  | [], acc => acc
  | note :: rest, (s, calls) =>
    if inStopWindow t note then
      stopDue t rest (stopNote s note.keyCode, calls ++ [Call.stopNote note.keyCode])
    else stopDue t rest (s, calls)

/-- The playback logic of `Synth::timerCallback` at a tick where the
millisecond counter reads `millisecondCounter`. The result is the new state
with the calls made into the voice pool, in order; `none` stands for undefined
behaviour, which arises when `melody.back()` is evaluated on an empty vector. -/
def timerCallback (s : State) (millisecondCounter : Nat) : Option (State × List Call) :=
  if s.is_playing_melody then
    let t := currentTime s millisecondCounter
    let (s2, calls) := stopDue t s.melody (startDue s t)
    if s2.next_melody_note_index ≥ s2.melody.length then
      match s2.melody.getLast? with
      | some back =>
        if t > back.startTimeSecs + back.durationSecs + 1 then
          some ({ s2 with is_playing_melody := false }, calls)
        else some (s2, calls)
      | none => none
    else some (s2, calls)
  else some (s, [])

/-- The playback part of the `playButton.onClick` handler that follows the
loading of the melody: mark playback as running from the current time. -/
def startPlayback (s : State) (millisecondCounter : Nat) : State :=
  { s with
    is_playing_melody := true
    melody_start_time := (millisecondCounter : ℚ) / 1000
    next_melody_note_index := 0 }

/-- The states the engine reaches from the constructed object, prepared with
sample rate `sr`, by `startNote`, `stopNote` and rendered blocks. -/
inductive Reachable (note_map : List (Int × Note)) (sr : ℚ) : State → Prop where
  | init : Reachable note_map sr (prepareToPlay (init note_map) sr)
  | startNote {s : State} (k : Int) :
      Reachable note_map sr s → Reachable note_map sr (startNote s k)
  | stopNote {s : State} (k : Int) :
      Reachable note_map sr s → Reachable note_map sr (stopNote s k)
  | getNextAudioBlock {s : State} (n : Nat) :
      Reachable note_map sr s → Reachable note_map sr (getNextAudioBlock s n)

/-! ## Auxiliary definitions used in the statements and proofs -/

/-- Both slot loops have this shape: rewrite the first element that passes the
test and leave the list otherwise as it is. -/
def updateFirst (p : Note → Bool) (g : Note → Note) : List Note → List Note
  | [] => []
  | voice :: rest => if p voice then g voice :: rest else voice :: updateFirst p g rest

/-- A silent, released slot: the only kind `startNote` may take. -/
def silent : Note := { amplitude := 0 }

/-- A two-key frequency table (keys `A` and `W`). -/
def sampleMap : List (Int × Note) :=
  [(65, { frequency := 440 }), (87, { frequency := 466 })]

/-- A ten-slot pool: key `W` sounding, one released slot still fading, eight
silent slots. -/
def samplePool : List Note :=
  [{ frequency := 466, is_active := true, key_code := 87 }, { amplitude := 1 / 2 },
    silent, silent, silent, silent, silent, silent, silent, silent]

/-- An engine state over `samplePool`. -/
def sampleState : State :=
  { sample_rate := 44100, active_notes := samplePool, note_map := sampleMap }

/-- A pool of ten active voices, keys 1 to 10. -/
def fullPool : List Note :=
  [1, 2, 3, 4, 5, 6, 7, 8, 9, 10].map (fun i => { is_active := true, key_code := i })

/-- An engine state whose ten slots are all active. -/
def fullState : State :=
  { sample_rate := 44100, active_notes := fullPool, note_map := sampleMap }

/-- The constructed state prepared at 44.1 kHz, after a block of 1000 frames
and a press of key `A`. -/
def startedState : State :=
  startNote (getNextAudioBlock (prepareToPlay (init sampleMap) 44100) 1000) 65

/-- A default slot after 1000 rendered frames at 44.1 kHz. -/
def fadedVoice : Note := Nat.iterate (renderVoice 44100) 1000 {}

/-- The key codes of the `startNote` calls in a call log, in order. -/
def startCalls : List Call → List Int
  | [] => []
  | Call.startNote k :: rest => k :: startCalls rest
  | Call.stopNote _ :: rest => startCalls rest

/-- A melody whose two events share the start time 0. -/
def chordMelody : List MelodyNote := [⟨65, 0, 1 / 2⟩, ⟨87, 0, 1 / 2⟩]

/-- Playback of `chordMelody` started when the millisecond counter reads 0. -/
def chordState : State := startPlayback { sampleState with melody := chordMelody } 0

/-- Playback started, at counter 0, with an empty working melody. -/
def emptyMelodyState : State := startPlayback { sampleState with melody := [] } 0

/-- The melody of the scheduling example:
`[{key 65, start 0.0, duration 0.5}, {key 66, start 0.5, duration 0.5}]`. -/
def exampleMelody : List MelodyNote := [⟨65, 0, 1 / 2⟩, ⟨66, 1 / 2, 1 / 2⟩]

/-- Playback of `exampleMelody` started when the millisecond counter reads 0. -/
def exampleState : State := startPlayback { sampleState with melody := exampleMelody } 0

/-- The scheduler fields of a playback of `exampleMelody`, started at counter 0,
in which both events have been fired. -/
def ExampleFired (s : State) : Prop :=
  s.melody = exampleMelody ∧ s.is_playing_melody = true ∧ s.melody_start_time = 0 ∧
    s.next_melody_note_index = 2

/-- A run of scheduler ticks at the given counter readings, call logs dropped. -/
def ticks (s : State) : List Nat → Option State
  | [] => some s
  | ms :: rest => (timerCallback s ms).bind (fun r => ticks r.1 rest)

/-- A state in which both events of `exampleMelody` have been fired. -/
def firedState : State :=
  { sampleState with
    melody := exampleMelody
    is_playing_melody := true
    next_melody_note_index := 2 }

/-- The melody presets that `loadSelectedMelody` names. They are globals of
`notes.h`, which is not among the sources, so their contents are parameters. -/
structure Presets where
  melody_ddlc : List MelodyNote
  melody1 : List MelodyNote
  melody2 : List MelodyNote
  melody_cinematic : List MelodyNote
  melody_edm : List MelodyNote
  melody_jazz : List MelodyNote
  melody_ambient : List MelodyNote
  melody_funk : List MelodyNote
  melody_classical : List MelodyNote
  melody_minimalist : List MelodyNote
  melody_epic : List MelodyNote
  melody_odyssey : List MelodyNote
  melody_symphony : List MelodyNote
deriving DecidableEq, Repr

/-- What `loadSelectedMelody` can reach: the preset globals and the `Synth`
object. -/
structure Program where
  presets : Presets
  synth : State
deriving DecidableEq, Repr

/-- The constant `const double speed_multiplier = 1.5` of case 1. -/
def speed_multiplier : ℚ := 3 / 2

/-- The body of the loop of case 1 of `loadSelectedMelody`, for one note. -/
def applySpeed (note : MelodyNote) : MelodyNote :=
  { note with
    startTimeSecs := note.startTimeSecs / speed_multiplier
    durationSecs := note.durationSecs / speed_multiplier }

/-- The method `Synth::loadSelectedMelody`, where `selectedId` is the value of
`melodySelector.getSelectedId()`. Each case copies a preset into `melody`;
case 1 then rescales the copy in place. -/
def loadSelectedMelody (p : Program) (selectedId : Int) : Program :=
  let melody : List MelodyNote :=
    if selectedId = 1 then p.presets.melody_ddlc.map applySpeed
    else if selectedId = 2 then p.presets.melody1
    else if selectedId = 3 then p.presets.melody2
    else if selectedId = 4 then p.presets.melody_cinematic
    else if selectedId = 5 then p.presets.melody_edm
    else if selectedId = 6 then p.presets.melody_jazz
    else if selectedId = 7 then p.presets.melody_ambient
    else if selectedId = 8 then p.presets.melody_funk
    else if selectedId = 9 then p.presets.melody_classical
    else if selectedId = 10 then p.presets.melody_minimalist
    else if selectedId = 11 then p.presets.melody_epic
    else if selectedId = 12 then p.presets.melody_odyssey
    else if selectedId = 13 then p.presets.melody_symphony
    else p.presets.melody1
  { p with synth := { p.synth with melody := melody } }

/-- A preset table whose `melody_ddlc` has two events; the other presets are
one-event melodies. -/
def samplePresets : Presets :=
  { melody_ddlc := [⟨65, 0, 3 / 4⟩, ⟨87, 3 / 4, 3 / 2⟩]
    melody1 := [⟨65, 0, 1⟩]
    melody2 := [⟨65, 0, 1⟩]
    melody_cinematic := [⟨65, 0, 1⟩]
    melody_edm := [⟨65, 0, 1⟩]
    melody_jazz := [⟨65, 0, 1⟩]
    melody_ambient := [⟨65, 0, 1⟩]
    melody_funk := [⟨65, 0, 1⟩]
    melody_classical := [⟨65, 0, 1⟩]
    melody_minimalist := [⟨65, 0, 1⟩]
    melody_epic := [⟨65, 0, 1⟩]
    melody_odyssey := [⟨65, 0, 1⟩]
    melody_symphony := [⟨65, 0, 1⟩] }

/-- A program state over `samplePresets`. -/
def sampleProgram : Program := { presets := samplePresets, synth := sampleState }

/-- A binary32 or binary64 datum: a finite value (the rational it denotes, the
two zeros identified), an infinity with its sign, or a NaN. -/
inductive Fp where
  | fin (q : ℚ)
  | inf (negative : Bool)
  | nan
deriving DecidableEq, Repr

/-- The function `std::fmod` on doubles: exact on finite arguments, NaN for an
infinite first or a zero second argument. -/
def Fp.fmod : Fp → Fp → Fp
  | Fp.fin x, Fp.fin y => if y = 0 then Fp.nan else Fp.fin (Synth.fmod x y)
  | Fp.fin x, Fp.inf _ => Fp.fin x
  | Fp.inf _, _ => Fp.nan
  | Fp.nan, _ => Fp.nan
  | _, Fp.nan => Fp.nan

theorem startLoop_eq_updateFirst (f : ℚ) (k : Int) (l : List Note) :
    startLoop f k l = updateFirst isFree (fun v => assign v f k) l := by
  induction l with
  | nil => rfl
  | cons v rest ih => simp [startLoop, updateFirst, ih]

theorem stopLoop_eq_updateFirst (k : Int) (l : List Note) :
    stopLoop k l = updateFirst (isPlaying k) (fun v => { v with is_active := false }) l := by
  induction l with
  | nil => rfl
  | cons v rest ih => simp [stopLoop, updateFirst, ih]

theorem updateFirst_length (p : Note → Bool) (g : Note → Note) (l : List Note) :
    (updateFirst p g l).length = l.length := by
  induction l with
  | nil => rfl
  | cons v rest ih =>
    by_cases h : p v <;> simp [updateFirst, h, ih]

theorem updateFirst_of_none (p : Note → Bool) (g : Note → Note) (l : List Note)
    (h : ∀ v ∈ l, p v = false) : updateFirst p g l = l := by
  induction l with
  | nil => rfl
  | cons v rest ih =>
    have hv : p v = false := h v (List.mem_cons_self _ _)
    have hr : ∀ w ∈ rest, p w = false := fun w hw => h w (List.mem_cons_of_mem _ hw)
    simp [updateFirst, hv, ih hr]

theorem updateFirst_of_some (p : Note → Bool) (g : Note → Note) (l : List Note)
    (h : ∃ v ∈ l, p v = true) :
    ∃ (i : Nat) (hi : i < l.length),
      p (l.get ⟨i, hi⟩) = true ∧
      (∀ (j : Nat) (hj : j < l.length), j < i → p (l.get ⟨j, hj⟩) = false) ∧
      updateFirst p g l = l.set i (g (l.get ⟨i, hi⟩)) := by
  induction l with
  | nil => simp at h
  | cons v rest ih =>
    by_cases hv : p v = true
    · refine ⟨0, by simp, by simpa using hv, ?_, by simp [updateFirst, hv]⟩
      intro j _ hj
      omega
    · have hv0 : p v = false := by simpa using hv
      have hr : ∃ w ∈ rest, p w = true := by
        obtain ⟨w, hw, hpw⟩ := h
        rcases List.mem_cons.mp hw with rfl | hw
        · exact absurd hpw hv
        · exact ⟨w, hw, hpw⟩
      obtain ⟨i, hi, hpi, hlt, heq⟩ := ih hr
      refine ⟨i + 1, by simpa using hi, by simpa using hpi, ?_, ?_⟩
      · intro j hj hji
        cases j with
        | zero => simpa using hv0
        | succ j =>
          have hj2 : j < rest.length := by simpa using hj
          simpa using hlt j hj2 (by omega)
      · simp [updateFirst, hv0, heq]

theorem isFree_iff (v : Note) : isFree v = true ↔ v.is_active = false ∧ v.amplitude = 0 := by
  simp [isFree]

theorem isPlaying_iff (k : Int) (v : Note) :
    isPlaying k v = true ↔ v.is_active = true ∧ v.key_code = k := by
  simp [isPlaying]

theorem isFree_eq_false_iff (v : Note) :
    isFree v = false ↔ ¬ (v.is_active = false ∧ v.amplitude = 0) := by
  rw [← isFree_iff]; simp

theorem isPlaying_eq_false_iff (k : Int) (v : Note) :
    isPlaying k v = false ↔ ¬ (v.is_active = true ∧ v.key_code = k) := by
  rw [← isPlaying_iff]; simp

theorem any_isPlaying_eq_false (k : Int) (l : List Note)
    (h : ∀ v ∈ l, ¬ (v.is_active = true ∧ v.key_code = k)) :
    l.any (isPlaying k) = false := by
  rw [List.any_eq_false]
  intro v hv
  have := (isPlaying_eq_false_iff k v).mpr (h v hv)
  simp [this]

/-! ## Claims on `startNote` and `stopNote` -/

/-- C1: when no slot is active with key `k`, `k` has the entry `it` in
`note_map` and some slot is free (`is_active = false` and `amplitude = 0`),
`startNote k` rewrites exactly the free slot of lowest index `i`: its
`frequency` becomes `it.frequency`, its `phase` 0, its `amplitude` 1, its
`is_active` true and its `key_code` `k`; every other slot, and the rest of the
state, is unchanged. -/
theorem startNote_takes_first_free_slot (s : State) (k : Int) (it : Note)
    (hplay : ∀ v ∈ s.active_notes, ¬ (v.is_active = true ∧ v.key_code = k))
    (hfind : find s.note_map k = some it)
    (hfree : ∃ v ∈ s.active_notes, v.is_active = false ∧ v.amplitude = 0) :
    ∃ (i : Nat) (hi : i < s.active_notes.length),
      ((s.active_notes.get ⟨i, hi⟩).is_active = false ∧
        (s.active_notes.get ⟨i, hi⟩).amplitude = 0) ∧
      (∀ (j : Nat) (hj : j < s.active_notes.length), j < i →
        ¬ ((s.active_notes.get ⟨j, hj⟩).is_active = false ∧
          (s.active_notes.get ⟨j, hj⟩).amplitude = 0)) ∧
      startNote s k =
        { s with
          active_notes := s.active_notes.set i
            { s.active_notes.get ⟨i, hi⟩ with
              frequency := it.frequency
              phase := 0
              amplitude := 1
              is_active := true
              key_code := k } } := by
  have hex : ∃ v ∈ s.active_notes, isFree v = true := by
    obtain ⟨v, hv, hf⟩ := hfree
    exact ⟨v, hv, (isFree_iff v).mpr hf⟩
  obtain ⟨i, hi, hpi, hlt, heq⟩ :=
    updateFirst_of_some isFree (fun v => assign v it.frequency k) s.active_notes hex
  refine ⟨i, hi, (isFree_iff _).mp hpi, ?_, ?_⟩
  · intro j hj hji
    exact (isFree_eq_false_iff _).mp (hlt j hj hji)
  · simp only [startNote, any_isPlaying_eq_false k s.active_notes hplay, hfind,
      startLoop_eq_updateFirst, heq]
    rfl

/-- Witness for C1 on `sampleState`: key `A` is not sounding, is in the table,
and slot 2 is the first free slot. -/
theorem startNote_takes_first_free_slot_witness :
    startNote sampleState 65 =
      { sampleState with
        active_notes := samplePool.set 2
          { frequency := 440, phase := 0, phase_delta := 0, amplitude := 1,
            is_active := true, key_code := 65 } } := by
  obtain ⟨i, hi, hfree, hfirst, heq⟩ :=
    startNote_takes_first_free_slot sampleState 65 { frequency := 440 }
      (by simp [sampleState, samplePool, silent])
      (by simp [sampleState, sampleMap, find])
      ⟨silent, by simp [sampleState, samplePool], by simp [silent]⟩
  have h2 : i = 2 := by
    have hlen : i < 10 := by simpa [sampleState, samplePool] using hi
    have h0 : i ≠ 0 := by
      rintro rfl
      simp [sampleState, samplePool] at hfree
    have h1 : i ≠ 1 := by
      rintro rfl
      simp [sampleState, samplePool] at hfree
    by_contra hne
    have hlt : 2 < i := by omega
    exact hfirst 2 (by simp [sampleState, samplePool]) hlt
      (by simp [sampleState, samplePool, silent])
  subst h2
  rw [heq]
  simp [sampleState, samplePool, silent]

/-! ## Length of the pool -/

theorem startNote_length (s : State) (k : Int) :
    (startNote s k).active_notes.length = s.active_notes.length := by
  unfold startNote
  split
  · rfl
  · split
    · simp [startLoop_eq_updateFirst, updateFirst_length]
    · rfl

theorem stopNote_length (s : State) (k : Int) :
    (stopNote s k).active_notes.length = s.active_notes.length := by
  simp [stopNote, stopLoop_eq_updateFirst, updateFirst_length]

theorem renderFrame_length (s : State) :
    (renderFrame s).active_notes.length = s.active_notes.length := by
  simp [renderFrame]

theorem getNextAudioBlock_succ (s : State) (n : Nat) :
    getNextAudioBlock s (n + 1) = renderFrame (getNextAudioBlock s n) := by
  simp [getNextAudioBlock, Function.iterate_succ_apply']

theorem getNextAudioBlock_zero (s : State) : getNextAudioBlock s 0 = s := rfl

theorem getNextAudioBlock_length (s : State) (n : Nat) :
    (getNextAudioBlock s n).active_notes.length = s.active_notes.length := by
  induction n with
  | zero => rfl
  | succ n ih => rw [getNextAudioBlock_succ, renderFrame_length, ih]

theorem reachable_length {note_map : List (Int × Note)} {sr : ℚ} {s : State}
    (h : Reachable note_map sr s) : s.active_notes.length = MAX_NOTES := by
  induction h with
  | init => simp [prepareToPlay, init]
  | startNote k _ ih => rw [startNote_length, ih]
  | stopNote k _ ih => rw [stopNote_length, ih]
  | getNextAudioBlock n _ ih => rw [getNextAudioBlock_length, ih]

theorem startNote_eq_self (s : State) (k : Int)
    (h : find s.note_map k = none ∨
      ∀ v ∈ s.active_notes, ¬ (v.is_active = false ∧ v.amplitude = 0)) :
    startNote s k = s := by
  unfold startNote
  split
  · rfl
  · split
    · rename_i it hfind
      rcases h with h | h
      · rw [h] at hfind
        cases hfind
      · have hnone : ∀ v ∈ s.active_notes, isFree v = false :=
          fun v hv => (isFree_eq_false_iff v).mpr (h v hv)
        rw [startLoop_eq_updateFirst, updateFirst_of_none _ _ _ hnone]
    · rfl

/-- C2: `startNote k` leaves the state (so every slot of the pool) unchanged
when `k` has no entry in `note_map` or no slot is free; in particular it is a
no-op once every slot is active; and in every reachable state the pool has 10
slots, so at most 10 voices are active. -/
theorem startNote_dropped_without_entry_or_free_slot (s : State) (k : Int) :
    ((find s.note_map k = none ∨
        ∀ v ∈ s.active_notes, ¬ (v.is_active = false ∧ v.amplitude = 0)) →
      startNote s k = s) ∧
    ((∀ v ∈ s.active_notes, v.is_active = true) → startNote s k = s) ∧
    (∀ (note_map : List (Int × Note)) (sr : ℚ), Reachable note_map sr s →
      s.active_notes.length = 10 ∧ s.active_notes.countP (fun v => v.is_active) ≤ 10) := by
  have key : (find s.note_map k = none ∨
      ∀ v ∈ s.active_notes, ¬ (v.is_active = false ∧ v.amplitude = 0)) →
      startNote s k = s := startNote_eq_self s k
  refine ⟨key, ?_, ?_⟩
  · intro hall
    apply key
    right
    intro v hv hfree
    rw [hall v hv] at hfree
    exact Bool.noConfusion hfree.1
  · intro note_map sr hr
    have hlen : s.active_notes.length = 10 := reachable_length hr
    refine ⟨hlen, ?_⟩
    calc s.active_notes.countP (fun v => v.is_active)
        ≤ s.active_notes.length := List.countP_le_length _
      _ = 10 := hlen

/-- Witness for C2: with all ten slots active, key `A` (in the table, not
sounding) is dropped; the constructed state is reachable and has ten slots. -/
theorem startNote_dropped_without_entry_or_free_slot_witness :
    startNote fullState 65 = fullState ∧
    startNote fullState 65 = fullState ∧
    ((prepareToPlay (init sampleMap) 44100).active_notes.length = 10 ∧
      (prepareToPlay (init sampleMap) 44100).active_notes.countP (fun v => v.is_active) ≤ 10) :=
  ⟨(startNote_dropped_without_entry_or_free_slot fullState 65).1
      (Or.inr (by simp [fullState, fullPool])),
    (startNote_dropped_without_entry_or_free_slot fullState 65).2.1
      (by simp [fullState, fullPool]),
    (startNote_dropped_without_entry_or_free_slot
      (prepareToPlay (init sampleMap) 44100) 65).2.2 sampleMap 44100 Reachable.init⟩

/-- C3: if some slot is active with key `k`, `stopNote k` clears `is_active` on
the first such slot `i` and changes nothing else (the slot keeps its amplitude,
phase, frequency and key code; all other slots and the rest of the state are
unchanged); if no slot is active with key `k`, `stopNote k` changes nothing. -/
theorem stopNote_clears_first_match_only (s : State) (k : Int) :
    ((∃ v ∈ s.active_notes, v.is_active = true ∧ v.key_code = k) →
      ∃ (i : Nat) (hi : i < s.active_notes.length),
        ((s.active_notes.get ⟨i, hi⟩).is_active = true ∧
          (s.active_notes.get ⟨i, hi⟩).key_code = k) ∧
        (∀ (j : Nat) (hj : j < s.active_notes.length), j < i →
          ¬ ((s.active_notes.get ⟨j, hj⟩).is_active = true ∧
            (s.active_notes.get ⟨j, hj⟩).key_code = k)) ∧
        stopNote s k =
          { s with
            active_notes := s.active_notes.set i
              { s.active_notes.get ⟨i, hi⟩ with is_active := false } }) ∧
    ((∀ v ∈ s.active_notes, ¬ (v.is_active = true ∧ v.key_code = k)) →
      stopNote s k = s) := by
  constructor
  · intro h
    have hex : ∃ v ∈ s.active_notes, isPlaying k v = true := by
      obtain ⟨v, hv, hp⟩ := h
      exact ⟨v, hv, (isPlaying_iff k v).mpr hp⟩
    obtain ⟨i, hi, hpi, hlt, heq⟩ :=
      updateFirst_of_some (isPlaying k) (fun v => { v with is_active := false })
        s.active_notes hex
    refine ⟨i, hi, (isPlaying_iff k _).mp hpi, ?_, ?_⟩
    · intro j hj hji
      exact (isPlaying_eq_false_iff k _).mp (hlt j hj hji)
    · simp only [stopNote, stopLoop_eq_updateFirst, heq]
  · intro h
    have hnone : ∀ v ∈ s.active_notes, isPlaying k v = false :=
      fun v hv => (isPlaying_eq_false_iff k v).mpr (h v hv)
    simp only [stopNote, stopLoop_eq_updateFirst, updateFirst_of_none _ _ _ hnone]

/-- Witness for C3 on `sampleState`: key `W` sounds in slot 0 and is released
there with its amplitude still 1; key `A` does not sound and nothing changes. -/
theorem stopNote_clears_first_match_only_witness :
    (∃ (i : Nat) (hi : i < sampleState.active_notes.length),
        ((sampleState.active_notes.get ⟨i, hi⟩).is_active = true ∧
          (sampleState.active_notes.get ⟨i, hi⟩).key_code = 87) ∧
        (∀ (j : Nat) (hj : j < sampleState.active_notes.length), j < i →
          ¬ ((sampleState.active_notes.get ⟨j, hj⟩).is_active = true ∧
            (sampleState.active_notes.get ⟨j, hj⟩).key_code = 87)) ∧
        stopNote sampleState 87 =
          { sampleState with
            active_notes := sampleState.active_notes.set i
              { sampleState.active_notes.get ⟨i, hi⟩ with is_active := false } }) ∧
    stopNote sampleState 65 = sampleState :=
  ⟨(stopNote_clears_first_match_only sampleState 87).1
      ⟨{ frequency := 466, is_active := true, key_code := 87 },
        by simp [sampleState, samplePool], rfl, rfl⟩,
    (stopNote_clears_first_match_only sampleState 65).2
      (by simp [sampleState, samplePool, silent])⟩

/-! ## At most one active slot per key -/

theorem renderVoice_is_active (sr : ℚ) (v : Note) :
    (renderVoice sr v).is_active = v.is_active := by
  unfold renderVoice
  dsimp only
  split_ifs <;> rfl

theorem renderVoice_key_code (sr : ℚ) (v : Note) :
    (renderVoice sr v).key_code = v.key_code := by
  unfold renderVoice
  dsimp only
  split_ifs <;> rfl

theorem isPlaying_renderVoice (sr : ℚ) (k : Int) (v : Note) :
    isPlaying k (renderVoice sr v) = isPlaying k v := by
  simp [isPlaying, renderVoice_is_active, renderVoice_key_code]

theorem countP_isPlaying_renderFrame (s : State) (k : Int) :
    (renderFrame s).active_notes.countP (isPlaying k) =
      s.active_notes.countP (isPlaying k) := by
  simp only [renderFrame, List.countP_map]
  congr 1
  funext v
  exact isPlaying_renderVoice s.sample_rate k v

theorem countP_isPlaying_getNextAudioBlock (s : State) (n : Nat) (k : Int) :
    (getNextAudioBlock s n).active_notes.countP (isPlaying k) =
      s.active_notes.countP (isPlaying k) := by
  induction n with
  | zero => rfl
  | succ n ih => rw [getNextAudioBlock_succ, countP_isPlaying_renderFrame, ih]

theorem countP_isPlaying_stopNote_le (s : State) (k k2 : Int) :
    (stopNote s k).active_notes.countP (isPlaying k2) ≤
      s.active_notes.countP (isPlaying k2) := by
  by_cases h : ∃ v ∈ s.active_notes, isPlaying k v = true
  · obtain ⟨i, hi, _, _, heq⟩ :=
      updateFirst_of_some (isPlaying k) (fun v => { v with is_active := false })
        s.active_notes h
    simp only [stopNote, stopLoop_eq_updateFirst, heq, List.countP_set _ _ _ _ hi]
    simp [isPlaying]
  · have hnone : ∀ v ∈ s.active_notes, isPlaying k v = false := by
      intro v hv
      by_contra hc
      exact h ⟨v, hv, by simpa using hc⟩
    simp [stopNote, stopLoop_eq_updateFirst, updateFirst_of_none _ _ _ hnone]

theorem countP_isPlaying_startNote_le_one (s : State) (k k2 : Int)
    (h : s.active_notes.countP (isPlaying k2) ≤ 1) :
    (startNote s k).active_notes.countP (isPlaying k2) ≤ 1 := by
  unfold startNote
  split
  · exact h
  · rename_i hany
    split
    · rename_i it _
      by_cases hfree : ∃ v ∈ s.active_notes, isFree v = true
      · obtain ⟨i, hi, hpi, _, heq⟩ :=
          updateFirst_of_some isFree (fun v => assign v it.frequency k) s.active_notes hfree
        have hinactive : (s.active_notes.get ⟨i, hi⟩).is_active = false :=
          ((isFree_iff _).mp hpi).1
        have hold2 : isPlaying k2 s.active_notes[i] = false := by
          have hin2 : s.active_notes[i].is_active = false := hinactive
          simp [isPlaying, hin2]
        simp only [startLoop_eq_updateFirst, heq, List.countP_set _ _ _ _ hi, hold2]
        by_cases hk : k = k2
        · subst hk
          have hzero : s.active_notes.countP (isPlaying k) = 0 := by
            rw [List.countP_eq_zero]
            intro v hv hp
            apply hany
            rw [List.any_eq_true]
            exact ⟨v, hv, hp⟩
          simp [hzero, isPlaying, assign]
        · simp [isPlaying, assign, hk]
          exact h
      · have hnone : ∀ v ∈ s.active_notes, isFree v = false := by
          intro v hv
          by_contra hc
          exact hfree ⟨v, hv, by simpa using hc⟩
        simpa [startLoop_eq_updateFirst, updateFirst_of_none _ _ _ hnone] using h
    · exact h

theorem reachable_countP_isPlaying_le_one {note_map : List (Int × Note)} {sr : ℚ}
    {s : State} (h : Reachable note_map sr s) (k : Int) :
    s.active_notes.countP (isPlaying k) ≤ 1 := by
  induction h with
  | init => simp [prepareToPlay, init, MAX_NOTES, List.countP_replicate, isPlaying]
  | startNote k2 _ ih => exact countP_isPlaying_startNote_le_one _ k2 k ih
  | stopNote k2 _ ih => exact le_trans (countP_isPlaying_stopNote_le _ k2 k) ih
  | getNextAudioBlock n _ ih => rw [countP_isPlaying_getNextAudioBlock]; exact ih

theorem index_unique_of_countP_le_one (p : Note → Bool) (l : List Note)
    (h : l.countP p ≤ 1) (i j : Nat) (hi : i < l.length) (hj : j < l.length)
    (hpi : p (l.get ⟨i, hi⟩) = true) (hpj : p (l.get ⟨j, hj⟩) = true) : i = j := by
  induction l generalizing i j with
  | nil => simp at hi
  | cons v rest ih =>
    have hmem : ∀ (n : Nat) (hn : n < rest.length), p (rest.get ⟨n, hn⟩) = true →
        0 < rest.countP p := fun n hn hp =>
      List.countP_pos_iff.mpr ⟨rest.get ⟨n, hn⟩, List.get_mem _ _ _, hp⟩
    rw [List.countP_cons] at h
    cases i with
    | zero =>
      cases j with
      | zero => rfl
      | succ j =>
        have hj2 : j < rest.length := by simpa using hj
        have hpv : p v = true := by simpa using hpi
        have := hmem j hj2 (by simpa using hpj)
        rw [if_pos hpv] at h
        omega
    | succ i =>
      have hi2 : i < rest.length := by simpa using hi
      cases j with
      | zero =>
        have hpv : p v = true := by simpa using hpj
        have := hmem i hi2 (by simpa using hpi)
        rw [if_pos hpv] at h
        omega
      | succ j =>
        have hj2 : j < rest.length := by simpa using hj
        have hrest : rest.countP p ≤ 1 := by omega
        have := ih hrest i j hi2 hj2 (by simpa using hpi) (by simpa using hpj)
        omega

/-- C4: in every state reachable from the constructed pool by `startNote`,
`stopNote` and rendered blocks, for every key `k` at most one slot is active
with key code `k`: two slots that both are have the same index. -/
theorem reachable_at_most_one_active_slot_per_key (note_map : List (Int × Note))
    (sr : ℚ) (s : State) (h : Reachable note_map sr s) (k : Int)
    (i j : Nat) (hi : i < s.active_notes.length) (hj : j < s.active_notes.length)
    (hpi : (s.active_notes.get ⟨i, hi⟩).is_active = true ∧
      (s.active_notes.get ⟨i, hi⟩).key_code = k)
    (hpj : (s.active_notes.get ⟨j, hj⟩).is_active = true ∧
      (s.active_notes.get ⟨j, hj⟩).key_code = k) : i = j :=
  index_unique_of_countP_le_one (isPlaying k) s.active_notes
    (reachable_countP_isPlaying_le_one h k) i j hi hj
    ((isPlaying_iff k _).mpr hpi) ((isPlaying_iff k _).mpr hpj)

/-! ## Fade-out of released voices -/

theorem updateFirst_at_first (p : Note → Bool) (g : Note → Note) (l : List Note)
    (i : Nat) (hi : i < l.length) (hp : p (l.get ⟨i, hi⟩) = true)
    (hlt : ∀ (j : Nat) (hj : j < l.length), j < i → p (l.get ⟨j, hj⟩) = false) :
    updateFirst p g l = l.set i (g (l.get ⟨i, hi⟩)) := by
  induction l generalizing i with
  | nil => simp at hi
  | cons v rest ih =>
    cases i with
    | zero =>
      have hv : p v = true := by simpa using hp
      simp [updateFirst, hv]
    | succ i =>
      have hv : p v = false := by simpa using hlt 0 (by simp) (by omega)
      have hi2 : i < rest.length := by simpa using hi
      have hrest := ih i hi2 (by simpa using hp) (fun j hj hji => by
        simpa using hlt (j + 1) (by simpa using hj) (by omega))
      simp only [updateFirst, hv, hrest]
      simp

theorem renderFrame_sample_rate (s : State) : (renderFrame s).sample_rate = s.sample_rate := rfl

theorem getNextAudioBlock_sample_rate (s : State) (n : Nat) :
    (getNextAudioBlock s n).sample_rate = s.sample_rate := by
  induction n with
  | zero => rfl
  | succ n ih => rw [getNextAudioBlock_succ, renderFrame_sample_rate, ih]

theorem getNextAudioBlock_active_notes (s : State) (n : Nat) :
    (getNextAudioBlock s n).active_notes =
      s.active_notes.map (Nat.iterate (renderVoice s.sample_rate) n) := by
  induction n with
  | zero => simp [getNextAudioBlock_zero]
  | succ n ih =>
    rw [getNextAudioBlock_succ]
    simp only [renderFrame, ih, getNextAudioBlock_sample_rate, List.map_map,
      Function.iterate_succ']

theorem renderVoice_amplitude_of_inactive (sr : ℚ) (v : Note)
    (hv : v.is_active = false) (ha : 0 ≤ v.amplitude) :
    (renderVoice sr v).amplitude = max (v.amplitude - 1 / 1000) 0 := by
  unfold renderVoice
  dsimp only
  by_cases hpos : 0 < v.amplitude
  · have hsound : (v.is_active || decide (v.amplitude > 0)) = true := by simp [hpos]
    have hfade : (!v.is_active) = true := by simp [hv]
    rw [if_pos hsound, if_pos hfade]
    by_cases hneg : v.amplitude - 1 / 1000 < 0
    · rw [if_pos hneg, max_eq_right (le_of_lt hneg)]
    · rw [if_neg hneg, max_eq_left (not_lt.mp hneg)]
  · have h0 : v.amplitude = 0 := le_antisymm (not_lt.mp hpos) ha
    simp [hv, h0]

theorem iterate_renderVoice_is_active (sr : ℚ) (v : Note) (n : Nat) :
    (Nat.iterate (renderVoice sr) n v).is_active = v.is_active := by
  induction n with
  | zero => rfl
  | succ n ih => rw [Function.iterate_succ_apply', renderVoice_is_active, ih]

theorem iterate_renderVoice_amplitude_of_inactive (sr : ℚ) (v : Note)
    (hv : v.is_active = false) (ha : 0 ≤ v.amplitude) (n : Nat) :
    (Nat.iterate (renderVoice sr) n v).amplitude = max (v.amplitude - n / 1000) 0 := by
  induction n with
  | zero => simp [max_eq_left ha]
  | succ n ih =>
    rw [Function.iterate_succ_apply', renderVoice_amplitude_of_inactive sr _
      (by rw [iterate_renderVoice_is_active, hv]) (by rw [ih]; exact le_max_right _ _), ih]
    push_cast
    rcases le_total (v.amplitude - n / 1000) 0 with h | h
    · rw [max_eq_right h, max_eq_right (by norm_num), max_eq_right (by linarith)]
    · rw [max_eq_left h]
      congr 1
      ring

/-- C6: in exact arithmetic, a rendered frame replaces the amplitude `a ≥ 0` of
an inactive voice by `max (a - 1/1000) 0` when `a > 0` and leaves it at 0 when
`a = 0`, so it never grows and never becomes negative. After `stopNote k` has
released the voice of key `k` at amplitude 1, the slot has amplitude
`max (1 - n/1000) 0` after `n` frames: it is exactly 0 from frame 1000 on, and
the slot then passes the free-slot test of `startNote`. -/
theorem released_voice_fades_to_free_slot (s : State) :
    (∀ (i : Nat) (hi : i < s.active_notes.length),
      (s.active_notes.get ⟨i, hi⟩).is_active = false →
      0 ≤ (s.active_notes.get ⟨i, hi⟩).amplitude →
      ∃ v : Note, (renderFrame s).active_notes[i]? = some v ∧
        v.amplitude =
          (if 0 < (s.active_notes.get ⟨i, hi⟩).amplitude
            then max ((s.active_notes.get ⟨i, hi⟩).amplitude - 1 / 1000) 0 else 0) ∧
        v.amplitude ≤ (s.active_notes.get ⟨i, hi⟩).amplitude ∧ 0 ≤ v.amplitude) ∧
    (∀ (k : Int) (i : Nat) (hi : i < s.active_notes.length),
      (s.active_notes.get ⟨i, hi⟩).is_active = true →
      (s.active_notes.get ⟨i, hi⟩).key_code = k →
      (s.active_notes.get ⟨i, hi⟩).amplitude = 1 →
      (∀ (j : Nat) (hj : j < s.active_notes.length), j < i →
        ¬ ((s.active_notes.get ⟨j, hj⟩).is_active = true ∧
          (s.active_notes.get ⟨j, hj⟩).key_code = k)) →
      ∀ n : Nat, ∃ v : Note,
        (getNextAudioBlock (stopNote s k) n).active_notes[i]? = some v ∧
        v.is_active = false ∧
        v.amplitude = max (1 - (n : ℚ) / 1000) 0 ∧
        (1000 ≤ n → v.amplitude = 0 ∧ isFree v = true)) := by
  constructor
  · intro i hi hinactive ha
    refine ⟨renderVoice s.sample_rate (s.active_notes.get ⟨i, hi⟩), ?_, ?_, ?_, ?_⟩
    · simp [renderFrame, List.getElem?_map, List.getElem?_eq_getElem hi]
    · rw [renderVoice_amplitude_of_inactive _ _ hinactive ha]
      split_ifs with hpos
      · rfl
      · have h0 : (s.active_notes.get ⟨i, hi⟩).amplitude = 0 :=
          le_antisymm (not_lt.mp hpos) ha
        rw [h0]
        norm_num
    · rw [renderVoice_amplitude_of_inactive _ _ hinactive ha]
      exact max_le (by linarith) ha
    · rw [renderVoice_amplitude_of_inactive _ _ hinactive ha]
      exact le_max_right _ _
  · intro k i hi hact hkey hamp hfirst n
    have hstop : (stopNote s k).active_notes =
        s.active_notes.set i { s.active_notes.get ⟨i, hi⟩ with is_active := false } := by
      simp only [stopNote, stopLoop_eq_updateFirst]
      exact updateFirst_at_first (isPlaying k) _ s.active_notes i hi
        ((isPlaying_iff k _).mpr ⟨hact, hkey⟩)
        (fun j hj hji => (isPlaying_eq_false_iff k _).mpr (hfirst j hj hji))
    have hamp2 : (Nat.iterate (renderVoice (stopNote s k).sample_rate) n
        { s.active_notes.get ⟨i, hi⟩ with is_active := false }).amplitude =
        max (1 - (n : ℚ) / 1000) 0 := by
      have hamp1 : s.active_notes[i].amplitude = 1 := hamp
      rw [iterate_renderVoice_amplitude_of_inactive _ _ rfl (by simp [hamp1])]
      simp [hamp1]
    refine ⟨Nat.iterate (renderVoice (stopNote s k).sample_rate) n
      { s.active_notes.get ⟨i, hi⟩ with is_active := false }, ?_, ?_, hamp2, ?_⟩
    · rw [getNextAudioBlock_active_notes, hstop]
      simp [List.getElem?_map, List.getElem?_set, hi]
    · rw [iterate_renderVoice_is_active]
    · intro hn
      have hzero : (Nat.iterate (renderVoice (stopNote s k).sample_rate) n
          { s.active_notes.get ⟨i, hi⟩ with is_active := false }).amplitude = 0 := by
        rw [hamp2]
        apply max_eq_right
        have : (1000 : ℚ) ≤ n := by exact_mod_cast hn
        linarith
      refine ⟨hzero, ?_⟩
      rw [isFree_iff]
      exact ⟨by rw [iterate_renderVoice_is_active], hzero⟩

/-! ## Sample runs from the constructed state -/

theorem fresh_block_active_notes :
    (getNextAudioBlock (prepareToPlay (init sampleMap) 44100) 1000).active_notes =
      List.replicate 10 fadedVoice := by
  rw [getNextAudioBlock_active_notes]
  simp only [prepareToPlay, init, MAX_NOTES, List.map_replicate]
  rfl

theorem fadedVoice_is_active : fadedVoice.is_active = false := by
  unfold fadedVoice
  rw [iterate_renderVoice_is_active]

theorem fadedVoice_amplitude : fadedVoice.amplitude = 0 := by
  unfold fadedVoice
  rw [iterate_renderVoice_amplitude_of_inactive _ _ rfl (by norm_num)]
  norm_num

theorem getNextAudioBlock_note_map (s : State) (n : Nat) :
    (getNextAudioBlock s n).note_map = s.note_map := by
  induction n with
  | zero => rfl
  | succ n ih => rw [getNextAudioBlock_succ]; exact ih

theorem startedState_active_notes :
    startedState.active_notes = assign fadedVoice 440 65 :: List.replicate 9 fadedVoice := by
  have hfree : isFree fadedVoice = true :=
    (isFree_iff _).mpr ⟨fadedVoice_is_active, fadedVoice_amplitude⟩
  have hplay : isPlaying 65 fadedVoice = false := by
    simp [isPlaying, fadedVoice_is_active]
  have hfind : find (getNextAudioBlock (prepareToPlay (init sampleMap) 44100) 1000).note_map 65
      = some { frequency := 440 } := by
    rw [getNextAudioBlock_note_map]
    simp [prepareToPlay, init, sampleMap, find]
  unfold startedState startNote
  rw [fresh_block_active_notes, hfind]
  simp [List.replicate_succ, hplay, startLoop, hfree]

theorem get_zero_of_eq_cons (l : List Note) (h : 0 < l.length) (x : Note) (rest : List Note)
    (e : l = x :: rest) : l.get ⟨0, h⟩ = x := by
  subst e
  rfl

theorem startedState_reachable : Reachable sampleMap 44100 startedState :=
  Reachable.startNote 65 (Reachable.getNextAudioBlock 1000 Reachable.init)

/-- Witness for C4: after 1000 frames and `startNote 65` the state is reachable
and slot 0 is active with key 65. -/
theorem reachable_at_most_one_active_slot_per_key_witness :
    Reachable sampleMap 44100 startedState ∧
    startedState.active_notes[0]?.map (fun v => (v.is_active, v.key_code)) = some (true, 65) ∧
    (0 : Nat) = 0 := by
  have h0 : 0 < startedState.active_notes.length := by
    rw [startedState_active_notes]; simp
  have hplay : (startedState.active_notes.get ⟨0, h0⟩).is_active = true ∧
      (startedState.active_notes.get ⟨0, h0⟩).key_code = 65 := by
    rw [get_zero_of_eq_cons _ h0 _ _ startedState_active_notes]
    exact ⟨rfl, rfl⟩
  refine ⟨startedState_reachable, ?_, ?_⟩
  · rw [startedState_active_notes]
    rfl
  · exact reachable_at_most_one_active_slot_per_key sampleMap 44100 startedState
      startedState_reachable 65 0 0 h0 h0 hplay hplay

/-- Witness for C6 on `sampleState`: the fading slot 1 goes from 1/2 to
499/1000 in one frame; key `W`, released from slot 0 at amplitude 1, is silent
and free after 1000 frames. -/
theorem released_voice_fades_to_free_slot_witness :
    (∃ v : Note, (renderFrame sampleState).active_notes[1]? = some v ∧
      v.amplitude = 499 / 1000) ∧
    (∃ v : Note, (getNextAudioBlock (stopNote sampleState 87) 1000).active_notes[0]? = some v ∧
      v.is_active = false ∧ v.amplitude = 0 ∧ isFree v = true) := by
  constructor
  · obtain ⟨v, hv, hamp, _, _⟩ :=
      (released_voice_fades_to_free_slot sampleState).1 1
        (by simp [sampleState, samplePool]) (by simp [sampleState, samplePool])
        (by simp [sampleState, samplePool])
    refine ⟨v, hv, ?_⟩
    rw [hamp]
    simp [sampleState, samplePool]
    norm_num
  · obtain ⟨v, hv, hact, _, hfree⟩ :=
      (released_voice_fades_to_free_slot sampleState).2 87 0
        (by simp [sampleState, samplePool]) (by simp [sampleState, samplePool])
        (by simp [sampleState, samplePool]) (by simp [sampleState, samplePool])
        (fun j _ hj => absurd hj (Nat.not_lt_zero j)) 1000
    exact ⟨v, hv, hact, (hfree (le_refl 1000)).1, (hfree (le_refl 1000)).2⟩

/-! ## Repeated note-on -/

theorem startNote_any_isPlaying (s : State) (k : Int) :
    (startNote s k).active_notes.any (isPlaying k) = true ↔
      s.active_notes.any (isPlaying k) = true ∨
        ((∃ it : Note, find s.note_map k = some it) ∧
          ∃ v ∈ s.active_notes, isFree v = true) := by
  unfold startNote
  split
  · rename_i hany
    simp [hany]
  · rename_i hany
    split
    · rename_i it hfind
      by_cases hfree : ∃ v ∈ s.active_notes, isFree v = true
      · obtain ⟨i, hi, _, _, heq⟩ :=
          updateFirst_of_some isFree (fun v => assign v it.frequency k) s.active_notes hfree
        have hmem : assign (s.active_notes.get ⟨i, hi⟩) it.frequency k ∈
            s.active_notes.set i (assign (s.active_notes.get ⟨i, hi⟩) it.frequency k) :=
          List.mem_set _ _ hi _
        constructor
        · intro _
          exact Or.inr ⟨⟨it, hfind⟩, hfree⟩
        · intro _
          simp only [startLoop_eq_updateFirst, heq]
          rw [List.any_eq_true]
          exact ⟨_, hmem, by simp [isPlaying, assign]⟩
      · have hnone : ∀ v ∈ s.active_notes, isFree v = false := by
          intro v hv
          by_contra hc
          exact hfree ⟨v, hv, by simpa using hc⟩
        simp only [startLoop_eq_updateFirst, updateFirst_of_none _ _ _ hnone]
        constructor
        · intro h
          exact absurd h hany
        · rintro (h | ⟨_, h⟩)
          · exact absurd h hany
          · exact absurd h hfree
    · rename_i hfind
      constructor
      · intro h
        exact absurd h hany
      · rintro (h | ⟨⟨it, hit⟩, _⟩)
        · exact absurd h hany
        · rw [hfind] at hit
          cases hit

theorem startNote_of_any_isPlaying (s : State) (k : Int)
    (h : s.active_notes.any (isPlaying k) = true) : startNote s k = s := by
  simp [startNote, h]

theorem startNote_idempotent (s : State) (k : Int) :
    startNote (startNote s k) k = startNote s k := by
  by_cases h : (startNote s k).active_notes.any (isPlaying k) = true
  · exact startNote_of_any_isPlaying _ k h
  · have hno := mt (startNote_any_isPlaying s k).mpr h
    push_neg at hno
    obtain ⟨_, hno2⟩ := hno
    have hself : startNote s k = s := by
      apply startNote_eq_self
      cases hfind : find s.note_map k with
      | none => exact Or.inl rfl
      | some it =>
        right
        intro v hv hfree
        exact hno2 ⟨it, hfind⟩ v hv ((isFree_iff v).mpr hfree)
    rw [hself, hself]

theorem countP_pos_iff_any (p : Note → Bool) (l : List Note) :
    0 < l.countP p ↔ l.any p = true := by
  rw [List.countP_pos_iff, List.any_eq_true]

theorem startNote_note_map (s : State) (k : Int) :
    (startNote s k).note_map = s.note_map := by
  unfold startNote
  split
  · rfl
  · split <;> rfl

theorem startedState_note_map : startedState.note_map = sampleMap := by
  unfold startedState
  rw [startNote_note_map, getNextAudioBlock_note_map]
  rfl

/-- C5, refuted as stated: `startedState` is reachable and has nine free slots,
yet after two `startNote 48` calls no slot is active with key 48, because key
48 has no entry in the frequency table. -/
theorem startNote_twice_counterexample :
    Reachable sampleMap 44100 startedState ∧
    find startedState.note_map 48 = none ∧
    (startNote (startNote startedState 48) 48).active_notes.countP (isPlaying 48) = 0 := by
  have hfind : find startedState.note_map 48 = none := by
    rw [startedState_note_map]
    simp [sampleMap, find]
  have hself : startNote startedState 48 = startedState :=
    startNote_eq_self _ _ (Or.inl hfind)
  refine ⟨startedState_reachable, hfind, ?_⟩
  rw [hself, hself, startedState_active_notes]
  simp [List.countP_cons, List.countP_replicate, isPlaying, assign, fadedVoice_is_active]

/-- C5, amended: in every reachable state the second of two consecutive
`startNote k` calls changes nothing, and afterwards at most one slot is active
with key `k`; it is exactly one precisely when, before the calls, a slot was
already active with key `k`, or `k` had a table entry and some slot was free. -/
theorem startNote_twice_at_most_one_active (note_map : List (Int × Note)) (sr : ℚ)
    (s : State) (h : Reachable note_map sr s) (k : Int) :
    startNote (startNote s k) k = startNote s k ∧
    (startNote (startNote s k) k).active_notes.countP (isPlaying k) ≤ 1 ∧
    ((startNote (startNote s k) k).active_notes.countP (isPlaying k) = 1 ↔
      (∃ v ∈ s.active_notes, v.is_active = true ∧ v.key_code = k) ∨
        ((∃ it : Note, find s.note_map k = some it) ∧
          ∃ v ∈ s.active_notes, v.is_active = false ∧ v.amplitude = 0)) := by
  have hle : (startNote s k).active_notes.countP (isPlaying k) ≤ 1 :=
    reachable_countP_isPlaying_le_one (Reachable.startNote k h) k
  refine ⟨startNote_idempotent s k, ?_, ?_⟩
  · rw [startNote_idempotent]
    exact hle
  · rw [startNote_idempotent]
    have hone : (startNote s k).active_notes.countP (isPlaying k) = 1 ↔
        0 < (startNote s k).active_notes.countP (isPlaying k) := by omega
    rw [hone, countP_pos_iff_any, startNote_any_isPlaying, List.any_eq_true]
    simp only [isPlaying_iff, isFree_iff]

/-- Witness for C5 (amended) on the reachable `startedState`, where key `A`
already sounds: the second call changes nothing and exactly one slot is active
with key 65. -/
theorem startNote_twice_at_most_one_active_witness :
    startNote (startNote startedState 65) 65 = startNote startedState 65 ∧
    (startNote (startNote startedState 65) 65).active_notes.countP (isPlaying 65) = 1 := by
  obtain ⟨hidem, _, hiff⟩ :=
    startNote_twice_at_most_one_active sampleMap 44100 startedState startedState_reachable 65
  refine ⟨hidem, hiff.mpr (Or.inl ⟨assign fadedVoice 440 65, ?_, rfl, rfl⟩)⟩
  rw [startedState_active_notes]
  exact List.mem_cons_self _ _

/-! ## Phase invariant -/

theorem startNote_scheduler_fields (s : State) (k : Int) :
    (startNote s k).melody = s.melody ∧
    (startNote s k).is_playing_melody = s.is_playing_melody ∧
    (startNote s k).melody_start_time = s.melody_start_time ∧
    (startNote s k).next_melody_note_index = s.next_melody_note_index := by
  unfold startNote
  split
  · exact ⟨rfl, rfl, rfl, rfl⟩
  · split <;> exact ⟨rfl, rfl, rfl, rfl⟩

theorem startDue_of_due (s : State) (t : ℚ) (note : MelodyNote)
    (hget : s.melody.get? s.next_melody_note_index = some note)
    (hdue : note.startTimeSecs ≤ t) :
    startDue s t =
      ({ startNote s note.keyCode with
          next_melody_note_index := s.next_melody_note_index + 1 },
        [Call.startNote note.keyCode]) := by
  unfold startDue
  rw [hget]
  simp [hdue]

theorem startDue_of_not_due (s : State) (t : ℚ)
    (h : ∀ note, s.melody.get? s.next_melody_note_index = some note → t < note.startTimeSecs) :
    startDue s t = (s, []) := by
  unfold startDue
  cases hget : s.melody.get? s.next_melody_note_index with
  | none => rfl
  | some note =>
    have := h note hget
    simp [not_le.mpr this]

theorem stopDue_fields (t : ℚ) (l : List MelodyNote) (acc : State × List Call) :
    (stopDue t l acc).1.melody = acc.1.melody ∧
    (stopDue t l acc).1.is_playing_melody = acc.1.is_playing_melody ∧
    (stopDue t l acc).1.melody_start_time = acc.1.melody_start_time ∧
    (stopDue t l acc).1.next_melody_note_index = acc.1.next_melody_note_index ∧
    (stopDue t l acc).2 =
      acc.2 ++ (l.filter (inStopWindow t)).map (fun note => Call.stopNote note.keyCode) := by
  induction l generalizing acc with
  | nil =>
    obtain ⟨s, calls⟩ := acc
    simp [stopDue]
  | cons note rest ih =>
    obtain ⟨s, calls⟩ := acc
    by_cases hw : inStopWindow t note = true
    · have := ih (stopNote s note.keyCode, calls ++ [Call.stopNote note.keyCode])
      simp only [stopDue, hw, if_true, List.filter_cons_of_pos hw, List.map_cons]
      simpa [stopNote] using this
    · have := ih (s, calls)
      simp only [stopDue, hw, List.filter_cons_of_neg hw]
      simpa using this

theorem startCalls_append_stops (calls : List Call) (l : List MelodyNote) :
    startCalls (calls ++ l.map (fun note => Call.stopNote note.keyCode)) = startCalls calls := by
  induction calls with
  | nil =>
    induction l with
    | nil => rfl
    | cons note rest ih => simpa [startCalls] using ih
  | cons c rest ih =>
    cases c with
    | startNote k => simp [startCalls, ih]
    | stopNote k => simpa [startCalls] using ih

theorem timerCallback_of_playing (s : State) (ms : Nat) (back : MelodyNote)
    (hplay : s.is_playing_melody = true) (hback : s.melody.getLast? = some back) :
    ∃ s2 : State,
      timerCallback s ms =
        some (s2, (stopDue (currentTime s ms) s.melody (startDue s (currentTime s ms))).2) ∧
      s2.melody = s.melody ∧
      s2.melody_start_time = s.melody_start_time ∧
      s2.next_melody_note_index =
        (startDue s (currentTime s ms)).1.next_melody_note_index ∧
      (s2.is_playing_melody = false ↔
        (s.melody.length ≤ (startDue s (currentTime s ms)).1.next_melody_note_index ∧
          back.startTimeSecs + back.durationSecs + 1 < currentTime s ms)) := by
  have hsd : (startDue s (currentTime s ms)).1.melody = s.melody ∧
      (startDue s (currentTime s ms)).1.is_playing_melody = s.is_playing_melody ∧
      (startDue s (currentTime s ms)).1.melody_start_time = s.melody_start_time := by
    unfold startDue
    split
    · split
      · exact ⟨(startNote_scheduler_fields s _).1, (startNote_scheduler_fields s _).2.1,
          (startNote_scheduler_fields s _).2.2.1⟩
      · exact ⟨rfl, rfl, rfl⟩
    · exact ⟨rfl, rfl, rfl⟩
  obtain ⟨hmel, hpl, hst, hidx, _⟩ :=
    stopDue_fields (currentTime s ms) s.melody (startDue s (currentTime s ms))
  rw [hsd.1] at hmel
  rw [hsd.2.1, hplay] at hpl
  rw [hsd.2.2] at hst
  unfold timerCallback
  simp only [hplay, if_true]
  generalize stopDue (currentTime s ms) s.melody (startDue s (currentTime s ms)) = r at *
  obtain ⟨s2, calls⟩ := r
  simp only at hmel hpl hst hidx ⊢
  by_cases hdone : s2.next_melody_note_index ≥ s2.melody.length
  · rw [if_pos hdone, hmel, hback]
    simp only
    by_cases hgrace : currentTime s ms > back.startTimeSecs + back.durationSecs + 1
    · rw [if_pos hgrace]
      refine ⟨_, rfl, rfl, hst, hidx, ?_⟩
      simp only [true_iff]
      exact ⟨by rw [← hidx, ← hmel]; exact hdone, hgrace⟩
    · rw [if_neg hgrace]
      refine ⟨_, rfl, hmel, hst, hidx, ?_⟩
      rw [hpl]
      constructor
      · intro h
        cases h
      · intro h
        exact absurd h.2 hgrace
  · rw [if_neg hdone]
    refine ⟨_, rfl, hmel, hst, hidx, ?_⟩
    rw [hpl]
    constructor
    · intro h
      cases h
    · intro h
      exact absurd (by rw [hidx, hmel]; exact h.1) hdone

theorem startCalls_stopDue (t : ℚ) (l : List MelodyNote) (acc : State × List Call) :
    startCalls (stopDue t l acc).2 = startCalls acc.2 := by
  rw [(stopDue_fields t l acc).2.2.2.2, startCalls_append_stops]

theorem take_one_drop_of_get? (l : List MelodyNote) (i : Nat) (note : MelodyNote)
    (h : l.get? i = some note) : (l.drop i).take 1 = [note] := by
  induction l generalizing i with
  | nil => simp at h
  | cons x rest ih =>
    cases i with
    | zero =>
      simp at h
      simp [h]
    | succ i =>
      simp at h
      simpa using ih i (by simpa using h)

/-- C8, refuted as stated: `chordMelody` is time-ordered and both of its events
start at 0, but the tick at elapsed time 0 starts only key 65 and leaves the
index at 1 (of 2) although the event at index 1 is due. -/
theorem timerCallback_fires_every_due_event_counterexample :
    currentTime chordState 0 = 0 ∧
    chordState.melody.map (fun note => note.startTimeSecs) = [0, 0] ∧
    (timerCallback chordState 0).map
      (fun r => (r.1.next_melody_note_index, r.1.melody.length, startCalls r.2)) =
        some (1, 2, [65]) := by
  have ht : currentTime chordState 0 = 0 := by
    simp [currentTime, chordState, startPlayback]
  refine ⟨ht, rfl, ?_⟩
  obtain ⟨s2, heq, hmel, _, hidx, _⟩ :=
    timerCallback_of_playing chordState 0 ⟨87, 0, 1 / 2⟩ rfl rfl
  have hdue : startDue chordState (currentTime chordState 0) =
      ({ startNote chordState 65 with next_melody_note_index := 0 + 1 },
        [Call.startNote 65]) :=
    startDue_of_due chordState _ ⟨65, 0, 1 / 2⟩ rfl (by rw [ht])
  rw [heq]
  simp only [Option.map_some', startCalls_stopDue, hdue, hidx, hmel]
  rfl

/-- C8, amended: a tick while playing a non-empty melody fires at most one
event. The index advances by exactly one when the event at the old index
exists and its start time is at most the elapsed time, and is unchanged
otherwise; `startNote` is called, in stored order, exactly for the events
between the old and the new index. -/
theorem timerCallback_fires_at_most_one_event (s : State) (ms : Nat)
    (hplay : s.is_playing_melody = true) (hne : s.melody ≠ []) :
    ∃ (s2 : State) (calls : List Call),
      timerCallback s ms = some (s2, calls) ∧
      s2.melody = s.melody ∧
      (s2.next_melody_note_index = s.next_melody_note_index ∨
        s2.next_melody_note_index = s.next_melody_note_index + 1) ∧
      (s2.next_melody_note_index = s.next_melody_note_index + 1 ↔
        ∃ note, s.melody.get? s.next_melody_note_index = some note ∧
          note.startTimeSecs ≤ currentTime s ms) ∧
      startCalls calls =
        ((s.melody.drop s.next_melody_note_index).take
          (s2.next_melody_note_index - s.next_melody_note_index)).map
            (fun note => note.keyCode) := by
  obtain ⟨s2, heq, hmel, _, hidx, _⟩ :=
    timerCallback_of_playing s ms (s.melody.getLast hne) hplay (List.getLast?_eq_getLast _ hne)
  refine ⟨s2, _, heq, hmel, ?_⟩
  rw [startCalls_stopDue, hidx]
  by_cases hdue : ∃ note, s.melody.get? s.next_melody_note_index = some note ∧
      note.startTimeSecs ≤ currentTime s ms
  · obtain ⟨note, hget, hle⟩ := hdue
    rw [startDue_of_due s _ note hget hle]
    refine ⟨Or.inr rfl, ⟨fun _ => ⟨note, hget, hle⟩, fun _ => rfl⟩, ?_⟩
    simp only [Nat.add_sub_cancel_left, take_one_drop_of_get? _ _ _ hget]
    rfl
  · have hnot : ∀ note, s.melody.get? s.next_melody_note_index = some note →
        currentTime s ms < note.startTimeSecs := by
      intro note hget
      by_contra hc
      exact hdue ⟨note, hget, not_lt.mp hc⟩
    rw [startDue_of_not_due s _ hnot]
    refine ⟨Or.inl rfl, ⟨fun h => absurd h (by simp), fun h => absurd h hdue⟩, ?_⟩
    simp [startCalls]

/-- Witness for C8 (amended) on `chordState` at counter 0: the tick returns,
starts key 65 only and moves the index from 0 to 1. -/
theorem timerCallback_fires_at_most_one_event_witness :
    ∃ (s2 : State) (calls : List Call),
      timerCallback chordState 0 = some (s2, calls) ∧
      s2.next_melody_note_index = 1 ∧ startCalls calls = [65] := by
  obtain ⟨s2, calls, heq, _, _, hiff, hcalls⟩ :=
    timerCallback_fires_at_most_one_event chordState 0 rfl
      (by simp [chordState, startPlayback, chordMelody])
  have hidx : s2.next_melody_note_index = chordState.next_melody_note_index + 1 :=
    hiff.mpr ⟨⟨65, 0, 1 / 2⟩, rfl, by simp [currentTime, chordState, startPlayback]⟩
  refine ⟨s2, calls, heq, hidx, ?_⟩
  rw [hcalls, hidx]
  rfl

/-- C9, code at the failing input: playback started on any state with an empty
working melody; at every tick the completion test evaluates `melody.back()` on
the empty vector, which is undefined behaviour (`none`), instead of setting
`is_playing_melody` to false. -/
theorem timerCallback_empty_melody_undefined (s : State) (start ms : Nat) :
    timerCallback (startPlayback { s with melody := [] } start) ms = none := by
  simp [timerCallback, startPlayback, startDue, stopDue]

/-! ## The scheduling example -/

theorem ticks_append (s : State) (l1 l2 : List Nat) :
    ticks s (l1 ++ l2) = (ticks s l1).bind (fun s2 => ticks s2 l2) := by
  induction l1 generalizing s with
  | nil => rfl
  | cons ms rest ih =>
    simp only [List.cons_append, ticks]
    cases timerCallback s ms with
    | none => rfl
    | some r => simpa using ih r.1

theorem example_tick (s : State) (ms : Nat) (hmel : s.melody = exampleMelody)
    (hplay : s.is_playing_melody = true) (hstart : s.melody_start_time = 0) :
    ∃ (s2 : State) (calls : List Call),
      timerCallback s ms = some (s2, calls) ∧
      s2.melody = exampleMelody ∧ s2.melody_start_time = 0 ∧
      s2.next_melody_note_index =
        (startDue s ((ms : ℚ) / 1000)).1.next_melody_note_index ∧
      (s2.is_playing_melody = false ↔
        (2 ≤ s2.next_melody_note_index ∧ 2000 < ms)) := by
  have ht : currentTime s ms = (ms : ℚ) / 1000 := by
    simp [currentTime, hstart]
  obtain ⟨s2, heq, hmel2, hstart2, hidx, hdone⟩ :=
    timerCallback_of_playing s ms ⟨66, 1 / 2, 1 / 2⟩ hplay (by rw [hmel]; rfl)
  rw [ht] at hidx hdone
  refine ⟨s2, _, heq, hmel2.trans hmel, hstart2.trans hstart, hidx, ?_⟩
  rw [hdone, hidx, hmel]
  have hlen : exampleMelody.length = 2 := rfl
  rw [hlen]
  have hgrace : ((1 : ℚ) / 2 + 1 / 2 + 1 < (ms : ℚ) / 1000) ↔ 2000 < ms := by
    rw [lt_div_iff₀ (by norm_num)]
    norm_num
  simp only [hgrace]

theorem exampleFired_tick (s : State) (h : ExampleFired s) (ms : Nat) :
    ∃ (s2 : State) (calls : List Call),
      timerCallback s ms = some (s2, calls) ∧
      (s2.is_playing_melody = false ↔ 2000 < ms) ∧
      (ms ≤ 2000 → ExampleFired s2) := by
  obtain ⟨hmel, hplay, hstart, hidx⟩ := h
  obtain ⟨s2, calls, heq, hmel2, hstart2, hidx2, hdone⟩ := example_tick s ms hmel hplay hstart
  have hsd : startDue s ((ms : ℚ) / 1000) = (s, []) := by
    apply startDue_of_not_due
    intro note hget
    rw [hmel, hidx] at hget
    simp [exampleMelody] at hget
  rw [hsd] at hidx2
  simp only at hidx2
  rw [hidx] at hidx2
  have hiff : s2.is_playing_melody = false ↔ 2000 < ms := by
    rw [hdone, hidx2]
    simp
  refine ⟨s2, calls, heq, hiff, ?_⟩
  intro hms
  have hnot : ¬ s2.is_playing_melody = false := fun hf => by
    have := hiff.mp hf
    omega
  exact ⟨hmel2, by simpa using hnot, hstart2, hidx2⟩

theorem example_two_ticks (base : State) :
    ∃ s2 : State,
      ticks (startPlayback { base with melody := exampleMelody } 0) [0, 500] = some s2 ∧
      ExampleFired s2 := by
  obtain ⟨s1, c1, heq1, hmel1, hstart1, hidx1, hdone1⟩ :=
    example_tick (startPlayback { base with melody := exampleMelody } 0) 0 rfl rfl
      (by simp [startPlayback])
  have hsd1 : startDue (startPlayback { base with melody := exampleMelody } 0)
      (((0 : Nat) : ℚ) / 1000) = _ :=
    startDue_of_due _ _ ⟨65, 0, 1 / 2⟩ rfl (by norm_num)
  rw [hsd1] at hidx1
  simp only [startPlayback] at hidx1
  have hplay1 : s1.is_playing_melody = true := by
    have hnot : ¬ s1.is_playing_melody = false := fun hf => by
      have := (hdone1.mp hf).1
      omega
    simpa using hnot
  obtain ⟨s2, c2, heq2, hmel2, hstart2, hidx2, hdone2⟩ :=
    example_tick s1 500 hmel1 hplay1 hstart1
  have hsd2 : startDue s1 (((500 : Nat) : ℚ) / 1000) = _ :=
    startDue_of_due _ _ ⟨66, 1 / 2, 1 / 2⟩ (by rw [hmel1, hidx1]; rfl) (by norm_num)
  rw [hsd2] at hidx2
  simp only [hidx1] at hidx2
  have hplay2 : s2.is_playing_melody = true := by
    have hnot : ¬ s2.is_playing_melody = false := fun hf => by
      have := (hdone2.mp hf).2
      omega
    simpa using hnot
  refine ⟨s2, ?_, hmel2, hplay2, hstart2, hidx2⟩
  simp [ticks, heq1, heq2]

/-- C10, refuted as stated: for the example melody started at counter 0, after
the ticks at 0.0 s and 0.5 s the tick at 2.25 s, which is before 2.5 s, sets
`is_playing_melody` to false. -/
theorem example_melody_idle_before_2500ms_counterexample :
    (ticks exampleState [0, 500, 2250]).map (fun s => s.is_playing_melody) = some false ∧
    ((2250 : Nat) : ℚ) / 1000 < 5 / 2 := by
  refine ⟨?_, by norm_num⟩
  obtain ⟨s2, h2, hfired⟩ := example_two_ticks sampleState
  obtain ⟨s3, c3, h3, hiff, _⟩ := exampleFired_tick s2 hfired 2250
  have h2e : ticks exampleState [0, 500] = some s2 := h2
  have happ : ticks exampleState ([0, 500] ++ [2250]) = some s3 := by
    rw [ticks_append, h2e]
    simp [ticks, h3]
  have hfalse : s3.is_playing_melody = false := hiff.mpr (by norm_num)
  show (ticks exampleState ([0, 500] ++ [2250])).map (fun s => s.is_playing_melody) = some false
  rw [happ]
  simp [hfalse]

/-- C10, amended: for the example melody with playback started at counter 0
(on any engine state), the ticks at 0.0 s and 0.5 s fire both events and leave
playback running; from then on a tick sets `is_playing_melody` to false
exactly when its elapsed time exceeds 2.0 s (the end of the last event, 1.0 s,
plus the 1 s grace period), and a tick at or before 2.0 s keeps playback running
with both events fired. -/
theorem example_melody_idle_only_after_2000ms (base : State) :
    (∃ s2 : State,
      ticks (startPlayback { base with melody := exampleMelody } 0) [0, 500] = some s2 ∧
      ExampleFired s2) ∧
    (∀ (s : State) (ms : Nat), ExampleFired s →
      ∃ (s2 : State) (calls : List Call),
        timerCallback s ms = some (s2, calls) ∧
        (s2.is_playing_melody = false ↔ 2000 < ms) ∧
        (ms ≤ 2000 → ExampleFired s2)) :=
  ⟨example_two_ticks base, fun s ms h => exampleFired_tick s h ms⟩

/-- Witness for C10 (amended): on `firedState` the tick at 2.0 s keeps playback
running. -/
theorem example_melody_idle_only_after_2000ms_witness :
    ∃ (s2 : State) (calls : List Call),
      timerCallback firedState 2000 = some (s2, calls) ∧ s2.is_playing_melody = true := by
  obtain ⟨s2, calls, heq, _, hkeep⟩ :=
    (example_melody_idle_only_after_2000ms sampleState).2 firedState 2000
      ⟨rfl, rfl, rfl, rfl⟩
  exact ⟨s2, calls, heq, (hkeep (le_refl 2000)).2.1⟩

/-! ## Loading a melody -/

theorem loadSelectedMelody_one (p : Program) :
    (loadSelectedMelody p 1).synth.melody = p.presets.melody_ddlc.map applySpeed := by
  simp [loadSelectedMelody]

/-- C11: with selected id 1, `loadSelectedMelody` leaves a working melody of
the length of the preset `melody_ddlc` whose `i`-th event has the key code of
the preset's and its start time and duration divided by 1.5 (in exact
arithmetic); so whenever preset start `i` is at most preset start `j`, the same
holds for the working starts; and the preset table is unchanged. -/
theorem loadSelectedMelody_ddlc_scaled (p : Program) :
    (loadSelectedMelody p 1).synth.melody.length = p.presets.melody_ddlc.length ∧
    (∀ (i : Nat) (hi : i < p.presets.melody_ddlc.length),
      ∃ note : MelodyNote, (loadSelectedMelody p 1).synth.melody[i]? = some note ∧
        note.keyCode = (p.presets.melody_ddlc.get ⟨i, hi⟩).keyCode ∧
        note.startTimeSecs = (p.presets.melody_ddlc.get ⟨i, hi⟩).startTimeSecs / (3 / 2) ∧
        note.durationSecs = (p.presets.melody_ddlc.get ⟨i, hi⟩).durationSecs / (3 / 2)) ∧
    (∀ (i j : Nat) (hi : i < p.presets.melody_ddlc.length)
      (hj : j < p.presets.melody_ddlc.length),
      (p.presets.melody_ddlc.get ⟨i, hi⟩).startTimeSecs ≤
        (p.presets.melody_ddlc.get ⟨j, hj⟩).startTimeSecs →
      ∃ wi wj : MelodyNote,
        (loadSelectedMelody p 1).synth.melody[i]? = some wi ∧
        (loadSelectedMelody p 1).synth.melody[j]? = some wj ∧
        wi.startTimeSecs ≤ wj.startTimeSecs) ∧
    (loadSelectedMelody p 1).presets = p.presets := by
  have hget : ∀ (i : Nat) (hi : i < p.presets.melody_ddlc.length),
      (loadSelectedMelody p 1).synth.melody[i]? =
        some (applySpeed (p.presets.melody_ddlc.get ⟨i, hi⟩)) := by
    intro i hi
    rw [loadSelectedMelody_one]
    simp [List.getElem?_map, List.getElem?_eq_getElem hi]
  refine ⟨?_, ?_, ?_, rfl⟩
  · rw [loadSelectedMelody_one, List.length_map]
  · intro i hi
    exact ⟨_, hget i hi, rfl, rfl, rfl⟩
  · intro i j hi hj hle
    refine ⟨_, _, hget i hi, hget j hj, ?_⟩
    show _ / speed_multiplier ≤ _ / speed_multiplier
    exact div_le_div_of_nonneg_right hle (by norm_num [speed_multiplier])

/-- Witness for C11 on `sampleProgram`: the second event `{87, 3/4, 3/2}` of the
preset becomes `{87, 1/2, 1}`, and the order of the two starts is kept. -/
theorem loadSelectedMelody_ddlc_scaled_witness :
    (∃ note : MelodyNote, (loadSelectedMelody sampleProgram 1).synth.melody[1]? = some note ∧
      note.keyCode = 87 ∧ note.startTimeSecs = 1 / 2 ∧ note.durationSecs = 1) ∧
    (∃ wi wj : MelodyNote,
      (loadSelectedMelody sampleProgram 1).synth.melody[0]? = some wi ∧
      (loadSelectedMelody sampleProgram 1).synth.melody[1]? = some wj ∧
      wi.startTimeSecs ≤ wj.startTimeSecs) := by
  have h0 : 0 < sampleProgram.presets.melody_ddlc.length := by
    simp [sampleProgram, samplePresets]
  have h1 : 1 < sampleProgram.presets.melody_ddlc.length := by
    simp [sampleProgram, samplePresets]
  constructor
  · obtain ⟨note, hget, hkey, hstart, hdur⟩ :=
      (loadSelectedMelody_ddlc_scaled sampleProgram).2.1 1 h1
    refine ⟨note, hget, hkey, ?_, ?_⟩
    · rw [hstart]
      show (3 / 4 : ℚ) / (3 / 2) = 1 / 2
      norm_num
    · rw [hdur]
      show (3 / 2 : ℚ) / (3 / 2) = 1
      norm_num
  · exact (loadSelectedMelody_ddlc_scaled sampleProgram).2.2.1 0 1 h0 h1
      (show (0 : ℚ) ≤ 3 / 4 by norm_num)

/-! ## The freshly constructed pool -/

end Synth
